import Mathlib

/-!
Shallow embedding of the business-logic core of `otimizador_programacaoSL.py`
(the lot sequencing / batching optimizer).

Modelling conventions:
* Python floats that hold parsed decimal values (thickness, weights) are
  modelled as exact rationals `ℚ`; the decimals occurring in the program
  (`4.75`, weights, the goal `120`) are exactly representable, so order
  comparisons agree with the Python float comparisons on the inputs at stake.
* Dates are modelled at day granularity as integers (`ℤ`); `pandas.NaT` /
  missing dates are `Option.none`.  `(data_atual - data_entrega).days` is the
  integer difference.
* A spreadsheet cell that does not hold a string (e.g. `NaN`) is `none`;
  a non-numeric quantity cell is `none` (pandas `to_numeric(errors='coerce')`).
* `pandas` specifics that matter here: `DataFrame.groupby` emits groups with
  keys sorted ascending (its default `sort=True`); `sort_values` on several
  columns uses `numpy.lexsort`, a stable sort, with `NaN`/`NaT` placed last
  (`na_position='last'`); `Series.unique` keeps first appearances.
-/

namespace Otimizador

/-- Weight goal for a batch, `PESO_META_BATCH = 120` (line 11 of the source). -/
def PESO_META_BATCH : ℚ := 120

/-! ### Descriptor parser: `parse_dimensoes` (lines 13–24)

The regex `(\d+[\.,]\d+|\d+)\s*X\s*(\d+)` is modelled directly: `re.search`
scans start positions left to right; at each position the alternation first
tries `digits sep digits` and then bare `digits`, each followed by
`\s* X \s* digits` with all digit runs greedy (backtracking cannot help for
this pattern, so greedy maximal runs are faithful). -/

/-- Characters matched by `\s` (ASCII part of Python's whitespace class). -/
def isPySpace (c : Char) : Bool :=
  c = ' ' || c = '\t' || c = '\n' || c = '\r' || c = '\x0b' || c = '\x0c'

/-- `startsWith pat s`: `pat` is a prefix of `s` (models Python `str.startswith`,
used to model the substring test of the `in` operator). -/
def startsWith : List Char → List Char → Bool
  | [], _ => true
  | _ :: _, [] => false
  | p :: ps, c :: cs => p == c && startsWith ps cs

/-- `containsSub pat s`: `pat` occurs as a contiguous substring of `s`
(models Python's `pat in s`). -/
def containsSub (pat : List Char) : List Char → Bool
  | [] => startsWith pat []
  | c :: cs => startsWith pat (c :: cs) || containsSub pat cs

/-- Match `\s*X\s*(\d+)` at the current position, returning group 2's digits. -/
def matchXW (cs : List Char) : Option (List Char) :=
  match cs.dropWhile isPySpace with
  | 'X' :: rest =>
    let d3 := ((rest.dropWhile isPySpace).takeWhile Char.isDigit)
    if d3.isEmpty then none else some d3
  | _ => none

/-- Try to match the whole pattern anchored at the current position,
returning (group 1 characters, group 2 characters). -/
def matchAt (cs : List Char) : Option (List Char × List Char) :=
  let d1 := cs.takeWhile Char.isDigit
  if d1.isEmpty then none else
  let r1 := cs.dropWhile Char.isDigit
  let b1 : Option (List Char × List Char) :=
    match r1 with
    | sep :: r2 =>
      if sep = '.' ∨ sep = ',' then
        let d2 := r2.takeWhile Char.isDigit
        if d2.isEmpty then none else
        match matchXW (r2.dropWhile Char.isDigit) with
        | some d3 => some (d1 ++ sep :: d2, d3)
        | none => none
      else none
    | [] => none
  match b1 with
  | some res => some res
  | none =>
    match matchXW r1 with
    | some d3 => some (d1, d3)
    | none => none

/-- `re.search`: first (leftmost) position where the pattern matches. -/
def searchDim : List Char → Option (List Char × List Char)
  | [] => none
  | c :: cs =>
    match matchAt (c :: cs) with
    | some res => some res
    | none => searchDim cs

/-- Value of a digit string (`int(...)`, and the integer parts of `float(...)`). -/
def digitsToNat (ds : List Char) : ℕ :=
  ds.foldl (fun n c => 10 * n + (c.toNat - 48)) 0

/-- Value of group 1 after `.replace(',', '.')` and `float(...)`: the digits
before the separator are the integer part, the digits after it the fractional
part.  Exact rational value of the decimal literal. -/
def decToRat (g1 : List Char) : ℚ :=
  let intPart := g1.takeWhile Char.isDigit
  match g1.dropWhile Char.isDigit with
  | _ :: frac => (digitsToNat intPart : ℚ) + (digitsToNat frac : ℚ) / (10 ^ frac.length)
  | [] => (digitsToNat intPart : ℚ)

/-- `parse_dimensoes` (lines 13–24).  `none` input models a non-string cell
(`isinstance(descricao_produto, str)` fails).  The result couples the two
components: Python returns `(None, None)` or `(espessura, largura)`, never a
mixed pair, so an `Option` of the pair is a faithful model.  The `try/except`
cannot fire because both groups are digit strings by construction. -/
def parse_dimensoes : Option String → Option (ℚ × ℕ)
  | none => none
  | some s =>
    if containsSub "REBAIXAD".data (s.data.map Char.toUpper) then none
    else
      match searchDim s.data with
      | some (g1, g2) => some (decToRat g1, digitsToNat g2)
      | none => none

/-! ### Setup classifier: `determinar_setup` (lines 26–31) -/

/-- Decimal digit characters of `n`, most significant first, with explicit
fuel so that the definition is structural (models Python's `f"{largura}"`).
`natStr` always supplies enough fuel. -/
def natStrAux : ℕ → ℕ → List Char
  | 0, _ => []
  | fuel + 1, n =>
    if n < 10 then [Char.ofNat (48 + n)]
    else natStrAux fuel (n / 10) ++ [Char.ofNat (48 + n % 10)]

/-- Decimal string of a natural number, as produced by Python's f-string. -/
def natStr (n : ℕ) : String :=
  (natStrAux (n + 1) n).asString

/-- `determinar_setup` (lines 26–31). -/
def determinar_setup : Option ℚ → Option ℕ → String
  | some espessura, some largura =>
    (if espessura ≤ 4.75 then "PLAINA_FINA" else "PLAINA_GROSSA")
      ++ "_" ++ natStr largura ++ "mm"
  | _, _ => "SETUP_INDEFINIDO"

/-! ### Urgency classifier: `calcular_urgencia` (lines 33–41) -/

/-- `calcular_urgencia` (lines 33–41).  `data_entrega = none` models
`pd.isna(data_entrega)`; `dias_atraso` is `(data_atual - data_entrega).days`. -/
def calcular_urgencia (data_entrega : Option ℤ) (data_atual : ℤ) : ℕ × String :=
  match data_entrega with
  | none => (5, "5 - COM FOLGA (SEM DATA)")
  | some d =>
    let dias_atraso := data_atual - d
    if dias_atraso > 10 then (1, "1 - URGENTÍSSIMO")
    else if 5 ≤ dias_atraso ∧ dias_atraso ≤ 10 then (2, "2 - URGENTE")
    else if 0 ≤ dias_atraso ∧ dias_atraso ≤ 4 then (3, "3 - ATRASADO")
    else if -10 ≤ dias_atraso ∧ dias_atraso < 0 then (4, "4 - NO TEMPO")
    else (5, "5 - COM FOLGA")

/-! ### Lot aggregator: `processar_dados_lote` (lines 43–63) -/

/-- One input line-item row (the columns the business logic reads). -/
structure Row where
  LOTE : String
  PRODUTO : Option String
  QTDE : Option ℚ
  DATA_ENTREGA : Option ℤ
deriving DecidableEq

/-- One aggregated lot (the dict built at lines 58–62). -/
structure Lote where
  LOTE : String
  PESO_TOTAL : ℚ
  DATA_ENTREGA : Option ℤ
  SETUP : String
  URGENCIA_NIVEL : ℕ
  URGENCIA_NOME : String
  ESPESSURA : ℚ
deriving DecidableEq

/-- The aggregation performed for one `groupby` group (lines 46–62). -/
def agrupaLote (data_atual : ℤ) (rows : List Row) (id : String) : Lote :=
  let grupo := rows.filter (fun r => r.LOTE == id)
  let peso_total_lote := (grupo.map (fun r => r.QTDE.getD 0)).sum
  let data_entrega_lote := (grupo.filterMap (·.DATA_ENTREGA)).min?
  let dims := grupo.findSome? (fun r => parse_dimensoes r.PRODUTO)
  let setup_lote := determinar_setup (dims.map (·.1)) (dims.map (·.2))
  let urg := calcular_urgencia data_entrega_lote data_atual
  { LOTE := id
    PESO_TOTAL := peso_total_lote
    DATA_ENTREGA := data_entrega_lote
    SETUP := setup_lote
    URGENCIA_NIVEL := urg.1
    URGENCIA_NOME := urg.2
    ESPESSURA := (dims.map (·.1)).getD 999 }

/-- `processar_dados_lote` (lines 43–63).  `df.groupby('LOTE')` iterates the
distinct keys in ascending (string) order — pandas `groupby` sorts group keys
by default — and each group keeps its rows in original order. -/
def processar_dados_lote (data_atual : ℤ) (rows : List Row) : List Lote :=
  (List.insertionSort (· ≤ ·) (rows.map (·.LOTE)).dedup).map (agrupaLote data_atual rows)

/-! ### Sequencer: `otimizar_sequencia` (lines 65–94) -/

/-- The three sortable priority columns offered by the interface
(`URGENCIA_NIVEL`, `SETUP`, `ESPESSURA`). -/
inductive Col
  | urgencia
  | setup
  | espessura
deriving DecidableEq

/-- Strict ascending order on one column's values. -/
def colLt (c : Col) (a b : Lote) : Prop :=
  match c with
  | .urgencia => a.URGENCIA_NIVEL < b.URGENCIA_NIVEL
  | .setup => a.SETUP < b.SETUP
  | .espessura => a.ESPESSURA < b.ESPESSURA

/-- Equality of one column's values. -/
def colEq (c : Col) (a b : Lote) : Prop :=
  match c with
  | .urgencia => a.URGENCIA_NIVEL = b.URGENCIA_NIVEL
  | .setup => a.SETUP = b.SETUP
  | .espessura => a.ESPESSURA = b.ESPESSURA

instance (c : Col) : ∀ a b, Decidable (colLt c a b) := by
  intro a b; cases c <;> exact inferInstanceAs (Decidable (_ < _))

instance (c : Col) : ∀ a b, Decidable (colEq c a b) := by
  intro a b; cases c <;> exact inferInstanceAs (Decidable (_ = _))

/-- Ascending order on the date column with missing dates last
(`sort_values` default `na_position='last'`). -/
def dateLe (x y : Option ℤ) : Prop :=
  match y with
  | none => True
  | some b =>
    match x with
    | none => False
    | some a => a ≤ b

instance : ∀ x y, Decidable (dateLe x y) := by
  intro x y
  cases y with
  | none => exact isTrue trivial
  | some b =>
    cases x with
    | none => exact isFalse id
    | some a => exact inferInstanceAs (Decidable (a ≤ b))

/-- Lexicographic "sorted before or tied" relation of
`sort_values(by=[p1, p2, p3, 'DATA_ENTREGA'])`: compare the listed columns in
order, with the delivery date as the final comparison. -/
def lexLe : List Col → Lote → Lote → Prop
  | [], a, b => dateLe a.DATA_ENTREGA b.DATA_ENTREGA
  | c :: cs, a, b => colLt c a b ∨ (colEq c a b ∧ lexLe cs a b)

instance instDecLexLe : (cs : List Col) → DecidableRel (lexLe cs)
  | [] => fun a b => inferInstanceAs (Decidable (dateLe _ _))
  | c :: cs => fun a b =>
    have : Decidable (lexLe cs a b) := instDecLexLe cs a b
    inferInstanceAs (Decidable (_ ∨ _ ∧ _))

/-- The caller's priority columns, in order (`priorities = [p1, p2, p3]`). -/
def prioCols (p : Col × Col × Col) : List Col := [p.1, p.2.1, p.2.2]

/-- One closed batch (the dict of lines 79–83 / 88–92). -/
structure Batch where
  setup : String
  peso : ℚ
  atingiu_meta : Bool
deriving DecidableEq

/-- The accumulation loop of lines 74–92: walk the sorted lots, closing the
current batch whenever the setup changes, and close the final batch at the
end unconditionally. -/
def batchLoop : List Lote → String → ℚ → List Batch
  | [], cur, w => [⟨cur, w, decide (PESO_META_BATCH ≤ w)⟩]
  | l :: rest, cur, w =>
    if l.SETUP ≠ cur then
      ⟨cur, w, decide (PESO_META_BATCH ≤ w)⟩ :: batchLoop rest l.SETUP l.PESO_TOTAL
    else
      batchLoop rest cur (w + l.PESO_TOTAL)

/-- `otimizar_sequencia` (lines 65–94): stable multi-key sort, then the
single-pass batching.  The `[]` arm models the explicit empty-list check of
lines 71–72; note that in the full program this arm is unreachable, because
`sort_values` at line 67 raises before it on an empty frame — that error
path is modelled separately by `otimizar_sequencia_run`. -/
def otimizar_sequencia (df_lotes : List Lote) (priorities : Col × Col × Col) :
    List Lote × List Batch :=
  match List.insertionSort (lexLe (prioCols priorities)) df_lotes with
  | [] => ([], [])
  | l :: rest => (l :: rest, batchLoop (l :: rest) l.SETUP 0)

/-- The `DataFrame` column name each priority choice sorts by. -/
def colName : Col → String
  | .urgencia => "URGENCIA_NIVEL"
  | .setup => "SETUP"
  | .espessura => "ESPESSURA"

/-- `otimizar_sequencia` as actually executed, exception path included.
When `processar_dados_lote` aggregated zero groups it returned
`pd.DataFrame([])`, a frame with **no columns**; then
`df_lotes.sort_values(by=[p1, p2, p3, 'DATA_ENTREGA'])` at line 67 validates
its `by` keys against the frame's columns and raises `KeyError` on the first
priority column — before the `if not sequencia_otimizada_lotes` check at
lines 71–72 can ever run.  On a non-empty lot list every column exists (the
frame is built from the full per-lot dicts) and the function returns
normally. -/
def otimizar_sequencia_run (df_lotes : List Lote) (priorities : Col × Col × Col) :
    Except String (List Lote × List Batch) :=
  match df_lotes with
  | [] => .error (colName priorities.1)
  | _ :: _ => .ok (otimizar_sequencia df_lotes priorities)

/-! ### Metrics: `calcular_metricas` (lines 132–156), the part claims use -/

/-- `peso_total_processado` (line 138): total weight over all batches. -/
def peso_total_processado (batches_info : List Batch) : ℚ :=
  (batches_info.map (·.peso)).sum

/-! ### Reporter: `gerar_relatorio_final` (lines 96–111), the part that
assigns sequence positions and drops unmatched rows.  Column formatting and
column reordering (lines 113–128) do not affect the claims and are omitted. -/

/-- One row of the final report (the fields the claims are about, plus the
original row carried through). -/
structure RelRow where
  pos : ℕ
  LOTE : String
  SETUP : String
  URGENCIA : String
  row : Row
deriving DecidableEq

instance : DecidableRel (fun a b : RelRow => a.pos ≤ b.pos) :=
  fun a b => inferInstanceAs (Decidable (a.pos ≤ b.pos))

/-- First-appearance deduplication, as performed by `Series.unique`:
keep each value the first time it is seen, drop later repeats. -/
def uniqueFirstAux (seen : List String) : List String → List String
  | [] => []
  | x :: xs => if x ∈ seen then uniqueFirstAux seen xs else x :: uniqueFirstAux (x :: seen) xs

/-- `sequencia['LOTE'].unique()` (line 99). -/
def uniqueFirst (l : List String) : List String := uniqueFirstAux [] l

/-- `gerar_relatorio_final` (lines 96–111).  `sequencia['LOTE'].unique()`
keeps first appearances; `mapa_posicao` maps each unique lot id to its
1-based rank; `mapa_info` (`drop_duplicates` keeps the first row per lot)
supplies `SETUP` and `URGENCIA_NOME`; rows whose lot id got no position are
dropped (`dropna`), and the survivors are sorted by position. -/
def gerar_relatorio_final (sequencia_lotes : List Lote) (rows : List Row) :
    List RelRow :=
  match sequencia_lotes with
  | [] => []
  | _ :: _ =>
    let uniq := uniqueFirst (sequencia_lotes.map (·.LOTE))
    let assigned := rows.filterMap (fun r =>
      if r.LOTE ∈ uniq then
        match sequencia_lotes.find? (fun l => l.LOTE == r.LOTE) with
        | some l => some ⟨uniq.indexOf r.LOTE + 1, r.LOTE, l.SETUP, l.URGENCIA_NOME, r⟩
        | none => none
      else none)
    List.insertionSort (fun a b : RelRow => a.pos ≤ b.pos) assigned

end Otimizador


namespace Otimizador

/-! ### Decimal-representation facts used for the setup-key analysis -/

theorem digitsToNat_append_singleton (l : List Char) (c : Char) :
    digitsToNat (l ++ [c]) = 10 * digitsToNat l + (c.toNat - 48) := by
  simp [digitsToNat, List.foldl_append]

theorem toNat_ofNat_digit (d : ℕ) (h : d < 10) :
    (Char.ofNat (48 + d)).toNat = 48 + d := by
  interval_cases d <;> decide

theorem digitsToNat_natStrAux : ∀ (fuel n : ℕ), n < fuel →
    digitsToNat (natStrAux fuel n) = n := by
  intro fuel
  induction fuel with
  | zero => omega
  | succ fuel ih =>
    intro n h
    by_cases h10 : n < 10
    · simp only [natStrAux, if_pos h10, digitsToNat, List.foldl_cons, List.foldl_nil]
      rw [toNat_ofNat_digit n h10]
      omega
    · simp only [natStrAux, if_neg h10]
      rw [digitsToNat_append_singleton, ih (n / 10) (by omega),
        toNat_ofNat_digit (n % 10) (by omega)]
      omega

theorem natStrAux_inj {m n : ℕ} (h : natStrAux (m + 1) m = natStrAux (n + 1) n) :
    m = n := by
  have hm := digitsToNat_natStrAux (m + 1) m (by omega)
  have hn := digitsToNat_natStrAux (n + 1) n (by omega)
  rw [← hm, ← hn, h]

theorem setup_key_inj_same_cat (p : String) {w1 w2 : ℕ}
    (h : p ++ "_" ++ natStr w1 ++ "mm" = p ++ "_" ++ natStr w2 ++ "mm") :
    w1 = w2 := by
  have hd := congrArg String.data h
  simp only [String.data_append] at hd
  have h1 := List.append_cancel_right hd
  have h2 := List.append_cancel_left h1
  have e1 : (natStr w1).data = natStrAux (w1 + 1) w1 := rfl
  have e2 : (natStr w2).data = natStrAux (w2 + 1) w2 := rfl
  rw [e1, e2] at h2
  exact natStrAux_inj h2

theorem setup_key_fine_ne_coarse (w1 w2 : ℕ) :
    "PLAINA_FINA" ++ "_" ++ natStr w1 ++ "mm" ≠ "PLAINA_GROSSA" ++ "_" ++ natStr w2 ++ "mm" := by
  intro h
  have h2 : ("PLAINA_FINA" ++ "_" ++ natStr w1 ++ "mm").data[7]?
      = ("PLAINA_GROSSA" ++ "_" ++ natStr w2 ++ "mm").data[7]? := by rw [h]
  rw [show ("PLAINA_FINA" ++ "_" ++ natStr w1 ++ "mm").data[7]? = some 'F' from rfl,
    show ("PLAINA_GROSSA" ++ "_" ++ natStr w2 ++ "mm").data[7]? = some 'G' from rfl] at h2
  exact absurd h2 (by decide)

/-- C7: if thickness or width is missing the setup classifier returns the
single sentinel key `SETUP_INDEFINIDO`; otherwise thickness `≤ 4.75` selects
the fine-planer category (`4.75` itself fine, `4.76` coarse) and the key
combines category and width, so two fully-parsed lots share a setup key
exactly when their category and width both agree. -/
theorem claim_C7 :
    (∀ w : Option ℕ, determinar_setup none w = "SETUP_INDEFINIDO")
    ∧ (∀ e : Option ℚ, determinar_setup e none = "SETUP_INDEFINIDO")
    ∧ determinar_setup (some 4.75) (some 1250) = "PLAINA_FINA_1250mm"
    ∧ determinar_setup (some 4.76) (some 1250) = "PLAINA_GROSSA_1250mm"
    ∧ ∀ e1 w1 e2 w2,
        determinar_setup (some e1) (some w1) = determinar_setup (some e2) (some w2)
        ↔ ((e1 ≤ 4.75 ↔ e2 ≤ 4.75) ∧ w1 = w2) := by
  refine ⟨fun w => by cases w <;> rfl, fun e => by cases e <;> rfl, ?_, ?_, ?_⟩
  · simp only [determinar_setup]
    rw [if_pos (by norm_num : (4.75 : ℚ) ≤ 4.75)]
    decide
  · simp only [determinar_setup]
    rw [if_neg (by norm_num : ¬ (4.76 : ℚ) ≤ 4.75)]
    decide
  · intro e1 w1 e2 w2
    by_cases h1 : e1 ≤ 4.75 <;> by_cases h2 : e2 ≤ 4.75 <;>
      simp only [determinar_setup]
    · rw [if_pos h1, if_pos h2]
      constructor
      · intro h
        exact ⟨iff_of_true h1 h2, setup_key_inj_same_cat _ h⟩
      · rintro ⟨-, rfl⟩
        rfl
    · rw [if_pos h1, if_neg h2]
      constructor
      · intro h
        exact absurd h (setup_key_fine_ne_coarse w1 w2)
      · rintro ⟨hc, -⟩
        exact absurd (hc.mp h1) h2
    · rw [if_neg h1, if_pos h2]
      constructor
      · intro h
        exact absurd h.symm (setup_key_fine_ne_coarse w2 w1)
      · rintro ⟨hc, -⟩
        exact absurd (hc.mpr h2) h1
    · rw [if_neg h1, if_neg h2]
      constructor
      · intro h
        exact ⟨iff_of_false h1 h2, setup_key_inj_same_cat _ h⟩
      · rintro ⟨-, rfl⟩
        rfl

/-- C2: a missing due date yields tier 5 with the distinct `SEM DATA` label;
otherwise, with `dias_atraso = data_atual - data_entrega`, the tier is 1 for
`> 10`, 2 on `[5, 10]`, 3 on `[0, 4]`, 4 on `[-10, -1]`, and 5 below `-10`. -/
theorem claim_C2 :
    ∀ (data_atual d : ℤ),
      ((calcular_urgencia (some d) data_atual).1 = 1 ↔ 10 < data_atual - d)
      ∧ ((calcular_urgencia (some d) data_atual).1 = 2 ↔
          (5 ≤ data_atual - d ∧ data_atual - d ≤ 10))
      ∧ ((calcular_urgencia (some d) data_atual).1 = 3 ↔
          (0 ≤ data_atual - d ∧ data_atual - d ≤ 4))
      ∧ ((calcular_urgencia (some d) data_atual).1 = 4 ↔
          (-10 ≤ data_atual - d ∧ data_atual - d ≤ -1))
      ∧ ((calcular_urgencia (some d) data_atual).1 = 5 ↔ data_atual - d < -10)
      ∧ calcular_urgencia none data_atual = (5, "5 - COM FOLGA (SEM DATA)")
      ∧ "5 - COM FOLGA (SEM DATA)" ≠ "5 - COM FOLGA" := by
  intro da d
  refine ⟨?_, ?_, ?_, ?_, ?_, rfl, by decide⟩ <;>
    · simp only [calcular_urgencia]
      split_ifs with h1 h2 h3 h4 <;> simp <;> omega

/-- C3 (code bug): on an empty row list the aggregator produces the empty
lot list (a column-less `pd.DataFrame([])`), and the sequencer as executed
(`otimizar_sequencia_run`) then raises `KeyError` on the first sort column
at line 67 instead of returning `([], [])`: the empty-list check of lines
71–72 sits after the raising `sort_values` call, so the spec's
"empty in, (empty, empty) out, no exception" edge case is not what the code
does.  On every non-empty lot list the run returns normally with the
`otimizar_sequencia` result. -/
theorem claim_C3 :
    (∀ data_atual : ℤ, processar_dados_lote data_atual [] = [])
    ∧ (∀ p : Col × Col × Col, otimizar_sequencia_run [] p = .error (colName p.1))
    ∧ (∀ (p : Col × Col × Col) (l : Lote) (rest : List Lote),
        otimizar_sequencia_run (l :: rest) p = .ok (otimizar_sequencia (l :: rest) p)) :=
  ⟨fun _ => rfl, fun _ => rfl, fun _ _ _ => rfl⟩

/-! ### Concrete evaluations of the parser (the rational results cannot be
checked by kernel evaluation, because `ℚ` normalization is not
kernel-reducible, so they are obtained by `norm_num` from `rfl` reductions
of the character-level search). -/

theorem parse_eval (s : String) (a b : List Char)
    (h1 : containsSub "REBAIXAD".data (s.data.map Char.toUpper) = false)
    (h2 : searchDim s.data = some (a, b)) :
    parse_dimensoes (some s) = some (decToRat a, digitsToNat b) := by
  simp [parse_dimensoes, h1, h2]

theorem decToRat_475 : decToRat "4,75".data = 4.75 := by
  have h : decToRat "4,75".data
      = (digitsToNat "4".data : ℚ) + (digitsToNat "75".data : ℚ) / 10 ^ 2 := rfl
  rw [h, show digitsToNat "4".data = 4 from rfl, show digitsToNat "75".data = 75 from rfl]
  norm_num

theorem decToRat_50 : decToRat "5.0".data = 5 := by
  have h : decToRat "5.0".data
      = (digitsToNat "5".data : ℚ) + (digitsToNat "0".data : ℚ) / 10 ^ 1 := rfl
  rw [h, show digitsToNat "5".data = 5 from rfl, show digitsToNat "0".data = 0 from rfl]
  norm_num

theorem decToRat_2 : decToRat "2".data = 2 := by
  have h : decToRat "2".data = (digitsToNat "2".data : ℚ) := rfl
  rw [h, show digitsToNat "2".data = 2 from rfl]
  norm_num

/-- C6: the descriptor parser rejects non-text input and any text containing
the reduced-product marker `REBAIXAD` (checked on the uppercased text,
regardless of digit content); otherwise the first `<thickness>X<width>`
occurrence is parsed with either decimal separator and whitespace-tolerant
`X`, e.g. `4,75X1250 ↦ (4.75, 1250)` and `5.0 X 1000 ↦ (5.0, 1000)`; with no
match it returns `none` (the Lean model of `(None, None)`) and never fails. -/
theorem claim_C6 :
    parse_dimensoes none = none
    ∧ (∀ s : String, containsSub "REBAIXAD".data (s.data.map Char.toUpper) = true →
        parse_dimensoes (some s) = none)
    ∧ parse_dimensoes (some "4,75X1250") = some (4.75, 1250)
    ∧ parse_dimensoes (some "5.0 X 1000") = some (5, 1000)
    ∧ parse_dimensoes (some "2X3 4X5") = some (2, 3)
    ∧ parse_dimensoes (some "SEM DIMENSOES") = none := by
  refine ⟨rfl, ?_, ?_, ?_, ?_, by decide⟩
  · intro s h
    simp [parse_dimensoes, h]
  · rw [parse_eval "4,75X1250" "4,75".data "1250".data rfl rfl, decToRat_475]
    rfl
  · rw [parse_eval "5.0 X 1000" "5.0".data "1000".data rfl rfl, decToRat_50]
    rfl
  · rw [parse_eval "2X3 4X5" "2".data "3".data rfl rfl, decToRat_2]
    rfl

/-- Witness for C6 at a concrete input: a lowercase marker (`rebaixada`)
with digit content still parses to nothing. -/
theorem claim_C6_witness :
    containsSub "REBAIXAD".data ("Bobina rebaixada 4,75X1250".data.map Char.toUpper) = true
    ∧ parse_dimensoes (some "Bobina rebaixada 4,75X1250") = none :=
  ⟨by decide, claim_C6.2.1 "Bobina rebaixada 4,75X1250" (by decide)⟩

/-- C9: the dimension separator must be an uppercase `X`: a lowercase `x`
descriptor such as `4,75x1250` does not match and parses to nothing, while
the same text with uppercase `X` parses. -/
theorem claim_C9 :
    parse_dimensoes (some "4,75x1250") = none
    ∧ parse_dimensoes (some "4,75X1250") = some (4.75, 1250) := by
  refine ⟨by decide, ?_⟩
  rw [parse_eval "4,75X1250" "4,75".data "1250".data rfl rfl, decToRat_475]
  rfl

end Otimizador

namespace Otimizador

open List

/-! ### Order facts for the sequencer sort relation -/

theorem colLt_trichotomy (c : Col) (a b : Lote) :
    colLt c a b ∨ colEq c a b ∨ colLt c b a := by
  cases c <;> exact lt_trichotomy _ _

theorem colEq_symm {c : Col} {a b : Lote} (h : colEq c a b) : colEq c b a := by
  cases c <;> simp only [colEq] at h ⊢ <;> exact h.symm

theorem colEq_trans {c : Col} {a b d : Lote} (h1 : colEq c a b) (h2 : colEq c b d) :
    colEq c a d := by
  cases c <;> simp only [colEq] at h1 h2 ⊢ <;> exact h1.trans h2

theorem colLt_trans {c : Col} {a b d : Lote} (h1 : colLt c a b) (h2 : colLt c b d) :
    colLt c a d := by
  cases c <;> simp only [colLt] at h1 h2 ⊢ <;> exact lt_trans h1 h2

theorem colLt_of_colLt_of_colEq {c : Col} {a b d : Lote}
    (h1 : colLt c a b) (h2 : colEq c b d) : colLt c a d := by
  cases c <;> simp only [colLt, colEq] at h1 h2 ⊢ <;> exact h2 ▸ h1

theorem colLt_of_colEq_of_colLt {c : Col} {a b d : Lote}
    (h1 : colEq c a b) (h2 : colLt c b d) : colLt c a d := by
  cases c <;> simp only [colLt, colEq] at h1 h2 ⊢ <;> exact h1.symm ▸ h2

theorem dateLe_total (x y : Option ℤ) : dateLe x y ∨ dateLe y x := by
  cases x <;> cases y <;> simp [dateLe] <;> exact le_total _ _

theorem dateLe_trans {x y z : Option ℤ} (h1 : dateLe x y) (h2 : dateLe y z) :
    dateLe x z := by
  cases z with
  | none => trivial
  | some c =>
    cases y with
    | none => exact absurd h2 id
    | some b =>
      cases x with
      | none => exact absurd h1 id
      | some a => exact le_trans h1 h2

theorem lexLe_total (cs : List Col) : ∀ a b : Lote, lexLe cs a b ∨ lexLe cs b a := by
  induction cs with
  | nil => exact fun a b => dateLe_total _ _
  | cons c cs ih =>
    intro a b
    rcases colLt_trichotomy c a b with h | h | h
    · exact Or.inl (Or.inl h)
    · rcases ih a b with h2 | h2
      · exact Or.inl (Or.inr ⟨h, h2⟩)
      · exact Or.inr (Or.inr ⟨colEq_symm h, h2⟩)
    · exact Or.inr (Or.inl h)

theorem lexLe_trans (cs : List Col) : ∀ a b d : Lote,
    lexLe cs a b → lexLe cs b d → lexLe cs a d := by
  induction cs with
  | nil => exact fun a b d => dateLe_trans
  | cons c cs ih =>
    rintro a b d (h1 | ⟨he1, hr1⟩) (h2 | ⟨he2, hr2⟩)
    · exact Or.inl (colLt_trans h1 h2)
    · exact Or.inl (colLt_of_colLt_of_colEq h1 he2)
    · exact Or.inl (colLt_of_colEq_of_colLt he1 h2)
    · exact Or.inr ⟨colEq_trans he1 he2, ih a b d hr1 hr2⟩

instance (cs : List Col) : IsTotal Lote (lexLe cs) := ⟨lexLe_total cs⟩

instance (cs : List Col) : IsTrans Lote (lexLe cs) := ⟨lexLe_trans cs⟩

/-- Insertion sort is stable: a class of pairwise-related elements (here: a
key-equivalence class) is filtered out of the sorted list in the same order
as out of the input. -/
theorem filter_insertionSort_of_class {α : Type} (r : α → α → Prop) [DecidableRel r]
    (q : α → Bool) (l : List α) (hq : ∀ a b, q a = true → q b = true → r a b) :
    (List.insertionSort r l).filter q = l.filter q := by
  have hpair : (l.filter q).Pairwise r :=
    List.pairwise_of_forall_mem_list (fun a ha b hb =>
      hq a b (List.of_mem_filter ha) (List.of_mem_filter hb))
  have hsub : l.filter q <+ List.insertionSort r l :=
    List.sublist_insertionSort hpair (List.filter_sublist l)
  have heq : (l.filter q).filter q = l.filter q :=
    List.filter_eq_self.mpr (fun a ha => List.of_mem_filter ha)
  have hsub2 : l.filter q <+ (List.insertionSort r l).filter q := by
    have := hsub.filter q
    rwa [heq] at this
  have hperm : (List.insertionSort r l).filter q ~ l.filter q :=
    (List.perm_insertionSort r l).filter q
  exact (hsub2.eq_of_length hperm.length_eq.symm).symm

/-- Two lots tie on the full sort key (the three priority columns and the
date tiebreak) exactly when each sorts no later than the other. -/
def sameKey (p : Col × Col × Col) (a b : Lote) : Prop :=
  lexLe (prioCols p) a b ∧ lexLe (prioCols p) b a

instance (p : Col × Col × Col) (a b : Lote) : Decidable (sameKey p a b) :=
  inferInstanceAs (Decidable (_ ∧ _))

/-- C4: the sequencer's lot list is the stable ascending sort of its input by
(priority column 1, priority column 2, priority column 3, delivery date) with
missing dates ordered last (`dateLe`): it is sorted for `lexLe`, it is a
permutation of the input, and lots tying on the whole key keep their input
order (stability).  Being a pure function of `(lots, p)`, repeated runs give
identical output. -/
theorem claim_C4 :
    ∀ (lots : List Lote) (p : Col × Col × Col),
      (otimizar_sequencia lots p).1 = List.insertionSort (lexLe (prioCols p)) lots
      ∧ List.Sorted (lexLe (prioCols p)) (otimizar_sequencia lots p).1
      ∧ (otimizar_sequencia lots p).1 ~ lots
      ∧ (∀ a : Lote,
          (otimizar_sequencia lots p).1.filter (fun x => decide (sameKey p a x))
            = lots.filter (fun x => decide (sameKey p a x)))
      ∧ (∀ x : ℤ, dateLe (some x) none ∧ ¬ dateLe none (some x)) := by
  intro lots p
  have h1 : (otimizar_sequencia lots p).1 = List.insertionSort (lexLe (prioCols p)) lots := by
    unfold otimizar_sequencia
    split <;> simp_all
  refine ⟨h1, ?_, ?_, ?_, fun x => ⟨trivial, id⟩⟩
  · rw [h1]
    exact List.sorted_insertionSort _ lots
  · rw [h1]
    exact List.perm_insertionSort _ lots
  · intro a
    rw [h1]
    exact filter_insertionSort_of_class _ _ lots (fun x y hx hy =>
      lexLe_trans _ _ _ _ (of_decide_eq_true hx).2 (of_decide_eq_true hy).1)

end Otimizador

namespace Otimizador

open List

/-! ### The batch list as maximal same-setup runs of the sorted sequence -/

/-- The maximal same-setup runs of a lot list, each as (first lot, rest of
run): the first run is the longest same-setup prefix, the remaining runs are
those of what follows.  This is the specification the single-pass loop of
`otimizar_sequencia` is checked against. -/
def runsBySetup : List Lote → List (Lote × List Lote)
  | [] => []
  | l :: rest =>
    (l, rest.takeWhile (fun x => x.SETUP == l.SETUP)) ::
      runsBySetup (rest.dropWhile (fun x => x.SETUP == l.SETUP))
termination_by l => l.length
decreasing_by
  simp only [List.length_cons]
  exact Nat.lt_succ_of_le (List.Sublist.length_le (List.dropWhile_sublist _))

/-- The batch a run closes into: the run's common setup, the sum of its
members' weights, and whether that sum reaches the goal. -/
def mkBatch (pr : Lote × List Lote) : Batch :=
  ⟨pr.1.SETUP, pr.1.PESO_TOTAL + (pr.2.map (·.PESO_TOTAL)).sum,
    decide (PESO_META_BATCH ≤ pr.1.PESO_TOTAL + (pr.2.map (·.PESO_TOTAL)).sum)⟩

theorem batchLoop_eq (lotes : List Lote) : ∀ (cur : String) (w : ℚ),
    batchLoop lotes cur w
      = ⟨cur, w + ((lotes.takeWhile (fun x => x.SETUP == cur)).map (·.PESO_TOTAL)).sum,
          decide (PESO_META_BATCH ≤
            w + ((lotes.takeWhile (fun x => x.SETUP == cur)).map (·.PESO_TOTAL)).sum)⟩
        :: (runsBySetup (lotes.dropWhile (fun x => x.SETUP == cur))).map mkBatch := by
  induction lotes with
  | nil => intro cur w; simp [batchLoop, runsBySetup]
  | cons l rest ih =>
    intro cur w
    by_cases h : l.SETUP = cur
    · rw [batchLoop, if_neg (fun hne => hne h),
        takeWhile_cons_of_pos (by simpa using h), dropWhile_cons_of_pos (by simpa using h),
        ih cur (w + l.PESO_TOTAL)]
      simp [add_assoc]
    · rw [batchLoop, if_pos h,
        takeWhile_cons_of_neg (by simpa using h), dropWhile_cons_of_neg (by simpa using h),
        ih l.SETUP l.PESO_TOTAL, runsBySetup]
      simp [mkBatch]

theorem otimizar_batches_eq (lots : List Lote) (p : Col × Col × Col) :
    (otimizar_sequencia lots p).2 = (runsBySetup (otimizar_sequencia lots p).1).map mkBatch := by
  unfold otimizar_sequencia
  split
  · simp [runsBySetup]
  · next l rest heq =>
    simp only
    rw [batchLoop_eq, runsBySetup,
      takeWhile_cons_of_pos (by simp), dropWhile_cons_of_pos (by simp)]
    simp [mkBatch]

theorem dropWhile_head_false {α : Type} {p : α → Bool} :
    ∀ {l : List α} {y : α} {ys : List α}, l.dropWhile p = y :: ys → p y = false := by
  intro l
  induction l with
  | nil => intro y ys h; simp [List.dropWhile] at h
  | cons a as ih =>
    intro y ys h
    rw [List.dropWhile_cons] at h
    by_cases hp : p a
    · rw [if_pos hp] at h
      exact ih h
    · rw [if_neg hp] at h
      cases h
      simpa using hp

theorem runsBySetup_spec : ∀ (l : List Lote),
    ((runsBySetup l).map (fun pr => pr.1 :: pr.2)).flatten = l
    ∧ (∀ pr ∈ runsBySetup l, ∀ x ∈ pr.2, x.SETUP = pr.1.SETUP)
    ∧ List.Chain' (fun a b => a.1.SETUP ≠ b.1.SETUP) (runsBySetup l) := by
  have main : ∀ (n : ℕ) (l : List Lote), l.length ≤ n →
      ((runsBySetup l).map (fun pr => pr.1 :: pr.2)).flatten = l
      ∧ (∀ pr ∈ runsBySetup l, ∀ x ∈ pr.2, x.SETUP = pr.1.SETUP)
      ∧ List.Chain' (fun a b => a.1.SETUP ≠ b.1.SETUP) (runsBySetup l) := by
    intro n
    induction n with
    | zero =>
      intro l h
      have : l = [] := List.eq_nil_of_length_eq_zero (Nat.le_zero.mp h)
      subst this
      simp [runsBySetup]
    | succ n ih =>
      intro l h
      match l with
      | [] => simp [runsBySetup]
      | x :: rest =>
        have hdrop : (rest.dropWhile (fun y => y.SETUP == x.SETUP)).length ≤ n := by
          have := List.Sublist.length_le (List.dropWhile_sublist
            (fun y => y.SETUP == x.SETUP) (l := rest))
          simp only [List.length_cons] at h
          omega
        obtain ⟨ihj, ihs, ihc⟩ := ih _ hdrop
        rw [runsBySetup]
        refine ⟨?_, ?_, ?_⟩
        · simp only [List.map_cons, List.flatten_cons, ihj, List.cons_append]
          rw [List.takeWhile_append_dropWhile]
        · intro pr hpr xx hxx
          rcases List.mem_cons.mp hpr with heq | hpr
          · subst heq
            simpa using List.mem_takeWhile_imp hxx
          · exact ihs pr hpr xx hxx
        · rw [List.chain'_cons']
          refine ⟨?_, ihc⟩
          intro q hq
          cases hd : rest.dropWhile (fun y => y.SETUP == x.SETUP) with
          | nil => rw [hd] at hq; simp [runsBySetup] at hq
          | cons z zs =>
            rw [hd] at hq
            rw [runsBySetup] at hq
            simp only [List.head?_cons, Option.mem_def, Option.some.injEq] at hq
            have hz := dropWhile_head_false hd
            rw [← hq]
            simp only
            intro hcontra
            rw [hcontra] at hz
            simp at hz
  exact fun l => main l.length l le_rfl

end Otimizador

namespace Otimizador

open List

/-- The sequence component of `otimizar_sequencia` is the sorted lot list. -/
theorem otimizar_fst (lots : List Lote) (p : Col × Col × Col) :
    (otimizar_sequencia lots p).1 = List.insertionSort (lexLe (prioCols p)) lots := by
  unfold otimizar_sequencia
  split <;> simp_all

theorem batchLoop_weight_sum (lotes : List Lote) : ∀ (cur : String) (w : ℚ),
    ((batchLoop lotes cur w).map (·.peso)).sum = w + (lotes.map (·.PESO_TOTAL)).sum := by
  induction lotes with
  | nil => intro cur w; simp [batchLoop]
  | cons l rest ih =>
    intro cur w
    by_cases h : l.SETUP = cur
    · rw [batchLoop, if_neg (fun hne => hne h), ih]
      simp only [List.map_cons, List.sum_cons]
      ring
    · rw [batchLoop, if_pos h]
      simp only [List.map_cons, List.sum_cons, ih]

/-- The concrete lots of the batch-closing example: setup keys
`A, A, B, B, B, A` with weights `40, 40, 30, 30, 70, 10`, made sort-stable by
giving the three runs urgency levels 1, 2, 3. -/
def exLote (id : String) (s : String) (u : ℕ) (w : ℚ) : Lote :=
  ⟨id, w, none, s, u, "", 0⟩

def exLots : List Lote :=
  [exLote "L1" "A" 1 40, exLote "L2" "A" 1 40, exLote "L3" "B" 2 30,
   exLote "L4" "B" 2 30, exLote "L5" "B" 2 70, exLote "L6" "A" 3 10]

/-- C1: the sequencer's batch list is exactly the list of maximal
consecutive same-setup runs of its sorted lot sequence, each closed into a
batch whose weight is the sum of the run's lot weights and whose
meets-target flag is true exactly when that weight reaches the goal
(`PESO_META_BATCH = 120`); the final run is closed like every other (the
run decomposition covers the whole sequence).  On setup keys
`[A,A,B,B,B,A]` with weights `[40,40,30,30,70,10]` the batches are exactly
`(A,80,false), (B,130,true), (A,10,false)`. -/
theorem claim_C1 :
    (∀ (lots : List Lote) (p : Col × Col × Col),
      (otimizar_sequencia lots p).2
          = (runsBySetup (otimizar_sequencia lots p).1).map mkBatch
      ∧ ((runsBySetup (otimizar_sequencia lots p).1).map (fun pr => pr.1 :: pr.2)).flatten
          = (otimizar_sequencia lots p).1
      ∧ (∀ pr ∈ runsBySetup (otimizar_sequencia lots p).1, ∀ x ∈ pr.2,
          x.SETUP = pr.1.SETUP)
      ∧ List.Chain' (fun a b => a.1.SETUP ≠ b.1.SETUP)
          (runsBySetup (otimizar_sequencia lots p).1)
      ∧ (∀ b ∈ (otimizar_sequencia lots p).2,
          b.atingiu_meta = true ↔ PESO_META_BATCH ≤ b.peso))
    ∧ PESO_META_BATCH = 120
    ∧ otimizar_sequencia exLots (Col.urgencia, Col.setup, Col.espessura)
        = (exLots, [⟨"A", 80, false⟩, ⟨"B", 130, true⟩, ⟨"A", 10, false⟩]) := by
  refine ⟨?_, rfl, ?_⟩
  · intro lots p
    obtain ⟨hj, hs, hc⟩ := runsBySetup_spec (otimizar_sequencia lots p).1
    refine ⟨otimizar_batches_eq lots p, hj, hs, hc, ?_⟩
    intro b hb
    rw [otimizar_batches_eq lots p] at hb
    obtain ⟨pr, -, rfl⟩ := List.mem_map.mp hb
    simp only [mkBatch]
    exact decide_eq_true_iff
  · have hsort : List.insertionSort
        (lexLe (prioCols (Col.urgencia, Col.setup, Col.espessura))) exLots = exLots := by
      apply List.Sorted.insertionSort_eq
      simp [List.sorted_cons, lexLe, colLt, colEq, dateLe, exLots, exLote, prioCols]
    unfold otimizar_sequencia
    split
    · next heq =>
      rw [hsort] at heq
      simp [exLots] at heq
    · next l rest heq =>
      rw [hsort] at heq
      simp only [exLots, List.cons.injEq] at heq
      obtain ⟨h1, h2⟩ := heq
      subst h2
      subst h1
      have hBA : (("B" : String) = "A") = False := eq_false (by decide)
      have hAB : (("A" : String) = "B") = False := eq_false (by decide)
      norm_num [batchLoop, exLots, exLote, PESO_META_BATCH, decide_eq_false_iff_not,
        decide_eq_true_eq, hBA, hAB]

/-- Witness for C1: in the example run, the batch `(B, 130, true)` is one of
the produced batches and its flag agrees with `120 ≤ 130`. -/
theorem claim_C1_witness :
    (⟨"B", 130, true⟩ : Batch)
        ∈ (otimizar_sequencia exLots (Col.urgencia, Col.setup, Col.espessura)).2
    ∧ (true = true ↔ PESO_META_BATCH ≤ (130 : ℚ)) := by
  have hmem : (⟨"B", 130, true⟩ : Batch)
      ∈ (otimizar_sequencia exLots (Col.urgencia, Col.setup, Col.espessura)).2 := by
    rw [claim_C1.2.2]
    simp
  exact ⟨hmem,
    (claim_C1.1 exLots (Col.urgencia, Col.setup, Col.espessura)).2.2.2.2 _ hmem⟩

/-- C10: every lot's weight lands in exactly one batch: the total weight over
the batch list (the `peso_total_processado` metric of `calcular_metricas`)
equals the total weight of the sequenced lots, which equals the total weight
of the input lots. -/
theorem claim_C10 :
    ∀ (lots : List Lote) (p : Col × Col × Col),
      peso_total_processado (otimizar_sequencia lots p).2
          = ((otimizar_sequencia lots p).1.map (·.PESO_TOTAL)).sum
      ∧ peso_total_processado (otimizar_sequencia lots p).2
          = (lots.map (·.PESO_TOTAL)).sum := by
  intro lots p
  have hperm : (otimizar_sequencia lots p).1 ~ lots := by
    rw [otimizar_fst]
    exact List.perm_insertionSort _ lots
  have h1 : peso_total_processado (otimizar_sequencia lots p).2
      = ((otimizar_sequencia lots p).1.map (·.PESO_TOTAL)).sum := by
    unfold otimizar_sequencia peso_total_processado
    split
    · simp
    · next l rest heq =>
      simp only
      rw [batchLoop_weight_sum]
      simp
  exact ⟨h1, h1.trans ((hperm.map (·.PESO_TOTAL)).sum_eq)⟩

end Otimizador

namespace Otimizador

open List

/-! ### The aggregator's output order -/

/-- The lot ids of the aggregator's output are the distinct input lot ids in
ascending string order (the iteration order of `df.groupby('LOTE')`). -/
theorem processar_map_LOTE (da : ℤ) (rows : List Row) :
    (processar_dados_lote da rows).map (·.LOTE)
      = List.insertionSort (· ≤ ·) ((rows.map (·.LOTE)).dedup) := by
  unfold processar_dados_lote
  rw [List.map_map]
  have : ((·.LOTE) ∘ agrupaLote da rows) = id := by
    funext id
    simp [agrupaLote]
  rw [this, List.map_id]

/-- Counterexample to C5 as stated: with input rows whose lot ids appear in
the order `B, A`, the aggregator emits `A, B` — ascending id order, not
first-appearance order. -/
theorem claim_C5_counterexample :
    (processar_dados_lote 0 [⟨"B", none, some 1, none⟩, ⟨"A", none, some 2, none⟩]).map (·.LOTE)
        = ["A", "B"]
    ∧ (processar_dados_lote 0 [⟨"B", none, some 1, none⟩, ⟨"A", none, some 2, none⟩]).map (·.LOTE)
        ≠ ["B", "A"] := by
  have hBA : ¬ (("B" : String) ≤ "A") := by
    rw [String.le_iff_toList_le]
    decide
  have h : (processar_dados_lote 0
      [⟨"B", none, some 1, none⟩, ⟨"A", none, some 2, none⟩]).map (·.LOTE) = ["A", "B"] := by
    rw [processar_map_LOTE]
    rw [show (([⟨"B", none, some 1, none⟩, ⟨"A", none, some 2, none⟩] : List Row).map
      (·.LOTE)).dedup = ["B", "A"] from by decide]
    simp only [List.insertionSort, List.orderedInsert]
    rw [if_neg hBA]
  exact ⟨h, by rw [h]; decide⟩

/-- C5 (amended): the aggregator emits exactly one record per distinct input
lot id, ordered by lot id ascending (string order) — not by first
appearance. -/
theorem claim_C5 :
    ∀ (da : ℤ) (rows : List Row),
      (processar_dados_lote da rows).map (·.LOTE)
          = List.insertionSort (· ≤ ·) ((rows.map (·.LOTE)).dedup)
      ∧ List.Sorted (· ≤ ·) ((processar_dados_lote da rows).map (·.LOTE))
      ∧ ((processar_dados_lote da rows).map (·.LOTE)).Nodup
      ∧ (∀ id : String, id ∈ (processar_dados_lote da rows).map (·.LOTE)
            ↔ id ∈ rows.map (·.LOTE)) := by
  intro da rows
  have h := processar_map_LOTE da rows
  refine ⟨h, ?_, ?_, ?_⟩
  · rw [h]
    exact List.sorted_insertionSort _ _
  · rw [h]
    exact ((List.perm_insertionSort _ _).nodup_iff).mpr ((rows.map (·.LOTE)).nodup_dedup)
  · intro id
    rw [h, List.mem_insertionSort, List.mem_dedup]

end Otimizador

namespace Otimizador

open List

/-! ### The reporter's position assignment -/

theorem uniqueFirstAux_of_nodup : ∀ (l : List String) (seen : List String),
    l.Nodup → (∀ x ∈ l, x ∉ seen) → uniqueFirstAux seen l = l := by
  intro l
  induction l with
  | nil => intro seen _ _; rfl
  | cons x xs ih =>
    intro seen hnd hs
    rw [uniqueFirstAux, if_neg (hs x (List.mem_cons_self x xs))]
    congr 1
    apply ih (x :: seen) (List.Nodup.of_cons hnd)
    intro y hy
    simp only [List.mem_cons]
    rintro (rfl | hmem)
    · exact (List.nodup_cons.mp hnd).1 hy
    · exact hs y (List.mem_cons_of_mem x hy) hmem

theorem uniqueFirst_of_nodup {l : List String} (h : l.Nodup) : uniqueFirst l = l :=
  uniqueFirstAux_of_nodup l [] h (by simp)

/-- C8: when the lot sequence has pairwise distinct lot ids (as the
aggregator guarantees) and every sequenced lot id occurs among the input
rows, then every sequenced lot id appears in the detail report; every report
row's position is exactly 1 + the rank of its lot id in the sequence (and
that rank points back at the id); and a lot id occupies a single position —
rows with a lot id outside the sequence are simply dropped (the function is
total, so nothing errors). -/
theorem claim_C8 :
    ∀ (sequencia : List Lote) (rows : List Row),
      (sequencia.map (·.LOTE)).Nodup →
      (∀ l ∈ sequencia, ∃ r ∈ rows, r.LOTE = l.LOTE) →
      (∀ l ∈ sequencia, ∃ rr ∈ gerar_relatorio_final sequencia rows, rr.LOTE = l.LOTE)
      ∧ (∀ rr ∈ gerar_relatorio_final sequencia rows,
          rr.pos = (sequencia.map (·.LOTE)).indexOf rr.LOTE + 1
          ∧ (sequencia.map (·.LOTE))[(sequencia.map (·.LOTE)).indexOf rr.LOTE]?
              = some rr.LOTE)
      ∧ (∀ rr1 ∈ gerar_relatorio_final sequencia rows,
          ∀ rr2 ∈ gerar_relatorio_final sequencia rows,
            rr1.LOTE = rr2.LOTE → rr1.pos = rr2.pos) := by
  intro sequencia rows hnd hcov
  cases sequencia with
  | nil =>
    refine ⟨by simp, ?_, ?_⟩ <;> simp [gerar_relatorio_final]
  | cons s ss =>
    have huniq : uniqueFirst ((s :: ss).map (·.LOTE)) = (s :: ss).map (·.LOTE) :=
      uniqueFirst_of_nodup hnd
    have hpos : ∀ rr ∈ gerar_relatorio_final (s :: ss) rows,
        rr.pos = ((s :: ss).map (·.LOTE)).indexOf rr.LOTE + 1
        ∧ ((s :: ss).map (·.LOTE))[((s :: ss).map (·.LOTE)).indexOf rr.LOTE]?
            = some rr.LOTE := by
      intro rr hrr
      simp only [gerar_relatorio_final, huniq, List.mem_insertionSort,
        List.mem_filterMap] at hrr
      obtain ⟨r, hr, hf⟩ := hrr
      by_cases hm : r.LOTE ∈ (s :: ss).map (·.LOTE)
      · rw [if_pos hm] at hf
        cases hfind : (s :: ss).find? (fun l' => l'.LOTE == r.LOTE) with
        | none =>
          rw [hfind] at hf
          exact absurd hf (by simp)
        | some l0 =>
          rw [hfind] at hf
          obtain rfl := Option.some.inj hf
          have hlt : ((s :: ss).map (·.LOTE)).indexOf r.LOTE
              < ((s :: ss).map (·.LOTE)).length := List.indexOf_lt_length.mpr hm
          exact ⟨rfl, by rw [List.getElem?_eq_getElem hlt, List.getElem_indexOf hlt]⟩
      · rw [if_neg hm] at hf
        exact absurd hf (by simp)
    refine ⟨?_, hpos, fun rr1 h1 rr2 h2 heq => by
      rw [(hpos rr1 h1).1, (hpos rr2 h2).1, heq]⟩
    intro l hl
    obtain ⟨r, hr, hrl⟩ := hcov l hl
    have hmemid : r.LOTE ∈ (s :: ss).map (·.LOTE) :=
      hrl ▸ List.mem_map_of_mem (·.LOTE) hl
    have hfind : ((s :: ss).find? (fun l' => l'.LOTE == r.LOTE)).isSome :=
      List.find?_isSome.mpr ⟨l, hl, by simp [hrl]⟩
    obtain ⟨l0, hl0⟩ := Option.isSome_iff_exists.mp hfind
    refine ⟨⟨((s :: ss).map (·.LOTE)).indexOf r.LOTE + 1, r.LOTE,
      l0.SETUP, l0.URGENCIA_NOME, r⟩, ?_, hrl⟩
    simp only [gerar_relatorio_final, huniq, List.mem_insertionSort, List.mem_filterMap]
    exact ⟨r, hr, by rw [if_pos hmemid, hl0]⟩

def wSeq : List Lote :=
  [⟨"A", 10, none, "S", 3, "u", 1⟩, ⟨"B", 20, none, "S", 3, "u", 1⟩]

def wRows : List Row :=
  [⟨"B", none, some 20, none⟩, ⟨"A", none, some 10, none⟩, ⟨"C", none, some 5, none⟩]

/-- Witness for C8: a concrete two-lot sequence with distinct ids covered by
three input rows (one of which carries an unknown lot id). -/
theorem claim_C8_witness :
    (wSeq.map (·.LOTE)).Nodup
    ∧ (∀ l ∈ wSeq, ∃ r ∈ wRows, r.LOTE = l.LOTE)
    ∧ (∀ l ∈ wSeq, ∃ rr ∈ gerar_relatorio_final wSeq wRows, rr.LOTE = l.LOTE) :=
  ⟨by decide, by decide, (claim_C8 wSeq wRows (by decide) (by decide)).1⟩

end Otimizador
